import Mathlib

/-!
Verification of the three ETL loader scripts of Parcel-Level-Flood-Risk-NYC
(`load_csv_to_mongo.py`, `load_wkt_csv_to_mongo.py`, `load_geojson_to_mongo.py`)
against their natural-language specification.

The Python code is shallowly embedded: strings are Lean `String`s restricted to
the ASCII behaviour of Python's `str` methods (`strip`, `lower`, `upper`,
`isdigit`), Python's `None`-or-string values are `Option String`, the four
scalar document values {None, int, float, str} are the inductive `PyVal`,
Python dicts are insertion-ordered association lists with overwrite-in-place
update, and generators are functions on lists.  Python's builtin `float(...)`
string parser is modelled by `pyFloat` (sign, digit runs with underscores
between digits, optional fraction and exponent, `inf`/`infinity`/`nan`),
with finite values represented exactly as rationals; the claims under
verification never exercise binary-rounding or overflow-to-infinity edge
cases.  External geometry libraries (shapely, pyproj) are abstracted as
function parameters.
-/

namespace FloodRisk

/-- A Python float value as produced by `float(<string>)`: a finite value
(modelled exactly as a rational), a signed infinity, or NaN. -/
inductive PyFloat where
  | finite (q : ℚ)
  | inf (neg : Bool)
  | nan
  deriving DecidableEq, Repr

/-- The scalar values the coercion functions can return:
Python `None`, `int`, `float` or `str`. -/
inductive PyVal where
  | none
  | int (n : ℤ)
  | float (x : PyFloat)
  | str (s : String)
  deriving DecidableEq, Repr

/-- Drop leading and trailing whitespace from a character list. -/
def stripList (l : List Char) : List Char :=
  ((l.dropWhile Char.isWhitespace).reverse.dropWhile Char.isWhitespace).reverse

/-- ASCII model of Python `str.strip()` (no argument): remove leading and
trailing whitespace. -/
def pyStrip (s : String) : String :=
  ⟨stripList s.data⟩

/-- ASCII model of Python `str.upper()`. -/
def pyUpper (s : String) : String :=
  ⟨s.data.map Char.toUpper⟩

/-- Model of the only `str.replace` call the coercion functions make,
`v.replace(",", "")`: delete every comma. -/
def removeCommas (s : String) : String :=
  ⟨s.data.filter (fun c => c != ',')⟩

/-- ASCII model of Python `str.isdigit`: non-empty and every character a
decimal digit. -/
def str_isdigit (s : String) : Bool :=
  s.length > 0 && s.data.all Char.isDigit

/-- Numeric value of a decimal digit string (the value `int(v)` returns when
`v.isdigit()` holds). -/
def digitsToNat (l : List Char) : Nat :=
  l.foldl (fun acc c => acc * 10 + (c.toNat - 48)) 0

/-- `int(v)` on an all-digit string. -/
def pyIntOfDigits (s : String) : ℤ :=
  (digitsToNat s.data : ℤ)

/-- Worker for `parseDigitRun`: consume further digits, allowing a single
underscore strictly between two digits. -/
def parseDigitRunGo (acc nd : Nat) : List Char → Nat × Nat × List Char
  | '_' :: d :: cs =>
      if d.isDigit then parseDigitRunGo (acc * 10 + (d.toNat - 48)) (nd + 1) cs
      else (acc, nd, '_' :: d :: cs)
  | d :: cs =>
      if d.isDigit then parseDigitRunGo (acc * 10 + (d.toNat - 48)) (nd + 1) cs
      else (acc, nd, d :: cs)
  | [] => (acc, nd, [])

/-- Parse a Python digit run: a digit followed by optionally
underscore-separated digits (`digitpart ::= digit (["_"] digit)*`).
Returns the accumulated value, the number of digits consumed and the
unconsumed remainder; `Option.none` if the input does not start with a digit. -/
def parseDigitRun : List Char → Option (Nat × Nat × List Char)
  | c :: cs =>
      if c.isDigit then some (parseDigitRunGo (c.toNat - 48) 1 cs) else Option.none
  | [] => Option.none

/-- The exact rational denoted by a parsed decimal literal:
integer part `ip`, fractional part `fp` spanning `fd` digits, exponent
`ev` with sign `eneg`. -/
def ratOfParts (ip fp fd : Nat) (eneg : Bool) (ev : Nat) : ℚ :=
  (((ip * 10 ^ fd + fp : Nat) : ℚ) / ((10 : ℚ) ^ fd)) *
    (if eneg then 1 / (10 : ℚ) ^ ev else (10 : ℚ) ^ ev)

/-- Parse the part of a Python float literal after the optional sign:
`digits [. digits] | . digits`, then an optional exponent. -/
def parseFloatBody (l : List Char) (neg : Bool) : Option PyFloat :=
  let intRun := parseDigitRun l
  let (ip, ind, rest) :=
    match intRun with
    | some (v, nd, r) => (v, nd, r)
    | Option.none => (0, 0, l)
  let (fp, fnd, rest2) :=
    match rest with
    | '.' :: cs =>
        match parseDigitRun cs with
        | some (v, nd, r) => (v, nd, r)
        | Option.none => (0, 0, cs)
    | _ => (0, 0, rest)
  -- at least one digit must appear, and a bare "." has no digits either side
  if ind + fnd = 0 then Option.none
  else if rest = rest2 ∧ ind = 0 then Option.none
  else
    match rest2 with
    | [] => some (PyFloat.finite (ratOfParts ip fp fnd false 0 * (if neg then -1 else 1)))
    | e :: cs =>
        if e = 'e' ∨ e = 'E' then
          let (eneg, cs2) :=
            match cs with
            | '+' :: t => (false, t)
            | '-' :: t => (true, t)
            | t => (false, t)
          match parseDigitRun cs2 with
          | some (ev, _, []) =>
              some (PyFloat.finite (ratOfParts ip fp fnd eneg ev * (if neg then -1 else 1)))
          | _ => Option.none
        else Option.none

/-- ASCII model of Python's builtin `float(<string>)`: strip whitespace,
optional sign, then either a case-insensitive `inf`/`infinity`/`nan`
keyword or a decimal literal with optional exponent.  Returns
`Option.none` where Python raises `ValueError`. -/
def pyFloat (s : String) : Option PyFloat :=
  let l := stripList s.data
  let (neg, l2) :=
    match l with
    | '+' :: t => (false, t)
    | '-' :: t => (true, t)
    | t => (false, t)
  let low := l2.map Char.toLower
  if low = "inf".data ∨ low = "infinity".data then some (PyFloat.inf neg)
  else if low = "nan".data then some PyFloat.nan
  else parseFloatBody l2 neg

/-- First character is `'0'`.  This models both spellings in the source —
`v.startswith("0")` in `load_csv_to_mongo.py` and `v[0] == "0"` in
`load_wkt_csv_to_mongo.py` — which coincide: both tests are only reached
under `len(v) > 1` (Python `and` short-circuits), so the string is
non-empty and each test is exactly "the first character is `0`". -/
def firstIsZero (s : String) : Bool :=
  match s.data with
  | '0' :: _ => true
  | _ => false

/-- The integer-branch guard shared verbatim by both coercion functions:
`v.isdigit() and not (len(v) > 1 and v.startswith("0"))` (CSV tool) and
`v.isdigit() and not (len(v) > 1 and v[0] == "0")` (WKT tool). -/
def intCond (t : String) : Prop :=
  str_isdigit t = true ∧ ¬(t.length > 1 ∧ firstIsZero t = true)

instance (t : String) : Decidable (intCond t) := by
  unfold intCond; infer_instance

/-- `coerce_value` of `load_csv_to_mongo.py`:
`None`/blank maps to `None`; an all-digit string without a leading zero to
`int`; otherwise `float(v.replace(",", ""))` if it parses; otherwise the
stripped string.  (`except ValueError` catches exactly the float-parse
failure; for all-ASCII-digit strings `int(v)` cannot raise.) -/
def coerce_value (v : Option String) : PyVal :=
  match v with
  | Option.none => PyVal.none
  | some v0 =>
      if pyStrip v0 = "" then PyVal.none
      else
        let v1 := pyStrip v0
        if intCond v1 then
          PyVal.int (pyIntOfDigits v1)
        else
          match pyFloat (removeCommas v1) with
          | some f => PyVal.float f
          | Option.none => PyVal.str v1

/-- `coerce_value` of `load_wkt_csv_to_mongo.py`:
like the CSV variant, but the stripped value is additionally mapped to
`None` when its uppercase form is one of `NULL`, `N/A`, `NA`, `NONE`;
the `int(v)` call is wrapped in its own `try` (which for all-digit
strings never fires), and float failure is caught by `except Exception`
(for a string argument, `float` raises only `ValueError`). -/
def coerce_value_wkt (v : Option String) : PyVal :=
  match v with
  | Option.none => PyVal.none
  | some v0 =>
      let v1 := pyStrip v0
      if v1 = "" ∨ pyUpper v1 ∈ ["NULL", "N/A", "NA", "NONE"] then PyVal.none
      else if intCond v1 then
        PyVal.int (pyIntOfDigits v1)
      else
        match pyFloat (removeCommas v1) with
        | some f => PyVal.float f
        | Option.none => PyVal.str v1

/-- Loop body of `batch` in `load_csv_to_mongo.py`: append each item to
`buf`, emitting `buf` whenever `len(buf) >= n`, then emit the final
buffer if it is non-empty. -/
def batchGo {α : Type} (n : Nat) : List α → List α → List (List α)
  | [], buf => if buf.isEmpty then [] else [buf]
  | x :: xs, buf =>
      if n ≤ (buf ++ [x]).length then (buf ++ [x]) :: batchGo n xs []
      else batchGo n xs (buf ++ [x])

/-- `batch` of `load_csv_to_mongo.py` (the generator consumed as a list). -/
def batch {α : Type} (l : List α) (n : Nat) : List (List α) :=
  batchGo n l []

/-- Loop body of `batch_iter`, the identical batcher duplicated into
`load_geojson_to_mongo.py` and `load_wkt_csv_to_mongo.py`. -/
def batch_iterGo {α : Type} (n : Nat) : List α → List α → List (List α)
  | [], buf => if buf.isEmpty then [] else [buf]
  | x :: xs, buf =>
      if n ≤ (buf ++ [x]).length then (buf ++ [x]) :: batch_iterGo n xs []
      else batch_iterGo n xs (buf ++ [x])

/-- `batch_iter` of `load_geojson_to_mongo.py` and
`load_wkt_csv_to_mongo.py`. -/
def batch_iter {α : Type} (l : List α) (n : Nat) : List (List α) :=
  batch_iterGo n l []

/-- Word character of Python's `\w` (ASCII model): alphanumeric or
underscore. -/
def isWordChar (c : Char) : Bool :=
  c.isAlphanum || c == '_'

/-- `re.sub(r"[^\w\s]", "", k)`: delete every character that is neither a
word character nor whitespace. -/
def subNonWordNonSpace (l : List Char) : List Char :=
  l.filter (fun c => isWordChar c || c.isWhitespace)

/-- `re.sub(r"\s+", "_", k)`: replace each maximal run of whitespace with a
single underscore (a whitespace character is dropped when followed by more
whitespace, and becomes `'_'` at the end of its run). -/
def collapseWs : List Char → List Char
  | [] => []
  | [c] => if c.isWhitespace then ['_'] else [c]
  | c :: d :: cs =>
      if c.isWhitespace then
        if d.isWhitespace then collapseWs (d :: cs) else '_' :: collapseWs (d :: cs)
      else c :: collapseWs (d :: cs)

/-- `normalize_key` of `load_csv_to_mongo.py`: `k.strip().lower()`, then
delete `[^\w\s]`, then collapse `\s+` runs to `"_"`. -/
def normalize_key (k : String) : String :=
  ⟨collapseWs (subNonWordNonSpace ((stripList k.data).map Char.toLower))⟩

/-- JSON values as produced by Python's `json` module (numbers collapsed
to rationals; none of the claims distinguishes int from float here). -/
inductive JVal where
  | null
  | bool (b : Bool)
  | num (q : ℚ)
  | str (s : String)
  | arr (xs : List JVal)
  | obj (kvs : List (String × JVal))

/-- A Mongo-ready document: a Python dict in insertion order. -/
abbrev Doc := List (String × JVal)

/-- Python dict lookup `d.get(k)` on the entry list (first match; a
well-formed dict has unique keys). -/
def dictGet {β : Type} (d : List (String × β)) (k : String) : Option β :=
  (d.find? (fun p => p.1 == k)).map (fun p => p.2)

/-- Python dict assignment `d[k] = v`: overwrite in place if the key
exists (keeping its position), else append. -/
def dictSet {β : Type} (d : List (String × β)) (k : String) (v : β) : List (String × β) :=
  if d.any (fun p => p.1 == k) then
    d.map (fun p => if p.1 == k then (k, v) else p)
  else d ++ [(k, v)]

/-- Python `d.update(kvs)`: assign every entry of `kvs` in order. -/
def dictUpdate {β : Type} (d : List (String × β)) (kvs : List (String × β)) :
    List (String × β) :=
  kvs.foldl (fun acc p => dictSet acc p.1 p.2) d

/-- Python falsiness of a JSON value (`or {}` in the source replaces a
falsy `properties` with the empty dict). -/
def isFalsy (v : JVal) : Bool :=
  match v with
  | .null => true
  | .bool b => !b
  | .num q => q == 0
  | .str s => s == ""
  | .arr xs => xs.isEmpty
  | .obj kvs => kvs.isEmpty

/-- `is_feature` of `load_geojson_to_mongo.py`: a dict whose `"type"` is
`"Feature"`. -/
def is_feature (obj : JVal) : Bool :=
  match obj with
  | .obj kvs =>
      match dictGet kvs "type" with
      | some (.str t) => t == "Feature"
      | _ => false
  | _ => false

/-- `is_feature_collection` of `load_geojson_to_mongo.py`: a dict whose
`"type"` is `"FeatureCollection"` and whose `"features"` is a list. -/
def is_feature_collection (obj : JVal) : Bool :=
  match obj with
  | .obj kvs =>
      (match dictGet kvs "type" with
       | some (.str t) => t == "FeatureCollection"
       | _ => false)
      &&
      (match dictGet kvs "features" with
       | some (.arr _) => true
       | _ => false)
  | _ => false

/-- `normalize_feature` of `load_geojson_to_mongo.py`: raise on a
non-Feature; otherwise write the geometry under `geometry_field`, then
either `doc.update(properties)` (flattening, dict-valued properties) or
nest them under `"properties"`, then retain `feat["id"]` as
`"_feature_id"` when requested.  `feat.get("properties", {}) or {}`
replaces an absent or falsy properties value by the empty dict. -/
def normalize_feature (feat : JVal) (geometry_field : String)
    (flatten_properties keep_id : Bool) : Except String Doc :=
  if ¬ is_feature feat then Except.error "Object is not a GeoJSON Feature"
  else
    let kvs := match feat with | .obj kvs => kvs | _ => []
    let geom := (dictGet kvs "geometry").getD JVal.null
    let props0 := (dictGet kvs "properties").getD (JVal.obj [])
    let props := if isFalsy props0 then JVal.obj [] else props0
    let doc : Doc := dictSet [] geometry_field geom
    let doc :=
      match props, flatten_properties with
      | .obj pkvs, true => dictUpdate doc pkvs
      | _, _ => dictSet doc "properties" props
    let doc :=
      if keep_id ∧ (dictGet kvs "id").isSome then
        dictSet doc "_feature_id" ((dictGet kvs "id").getD JVal.null)
      else doc
    Except.ok doc

/-- The `isinstance(obj, list)` branch of the GeoJSON stream: yield a
document for each element that is a Feature, silently skipping the rest. -/
def processArr (gf : String) (fl kp : Bool) : List JVal → Except String (List Doc)
  | [] => Except.ok []
  | x :: rest =>
      if is_feature x then do
        let d ← normalize_feature x gf fl kp
        let ds ← processArr gf fl kp rest
        Except.ok (d :: ds)
      else processArr gf fl kp rest

/-- The FeatureCollection branch: normalize every element of `features`
without a Feature guard (a non-Feature element raises). -/
def processFeatures (gf : String) (fl kp : Bool) : List JVal → Except String (List Doc)
  | [] => Except.ok []
  | x :: rest => do
      let d ← normalize_feature x gf fl kp
      let ds ← processFeatures gf fl kp rest
      Except.ok (d :: ds)

/-- The non-NDJSON branch of `yield_docs_from_geojson_stream`, applied to
the parsed top-level JSON value. -/
def yield_docs_from_geojson_value (obj : JVal) (gf : String) (fl kp : Bool) :
    Except String (List Doc) :=
  if is_feature obj then (normalize_feature obj gf fl kp).map (fun d => [d])
  else if is_feature_collection obj then
    match obj with
    | .obj kvs =>
        match dictGet kvs "features" with
        | some (.arr xs) => processFeatures gf fl kp xs
        | _ => Except.error "Input JSON is not a Feature, FeatureCollection, or array of Features"
    | _ => Except.error "Input JSON is not a Feature, FeatureCollection, or array of Features"
  else
    match obj with
    | .arr xs => processArr gf fl kp xs
    | _ => Except.error "Input JSON is not a Feature, FeatureCollection, or array of Features"

/-- The NDJSON branch of `yield_docs_from_geojson_stream`, applied to the
parsed values of the non-blank lines, in order; the first offending line
aborts the stream. -/
def yield_docs_from_ndjson_lines (lines : List JVal) (gf : String) (fl kp : Bool) :
    Except String (List Doc) :=
  match lines with
  | [] => Except.ok []
  | obj :: rest => do
      let ds ←
        (if is_feature obj then (normalize_feature obj gf fl kp).map (fun d => [d])
         else if is_feature_collection obj then
           match obj with
           | .obj kvs =>
               match dictGet kvs "features" with
               | some (.arr xs) => processFeatures gf fl kp xs
               | _ => Except.error
                   "NDJSON line is not a Feature/FeatureCollection/array of Features"
           | _ => Except.error
               "NDJSON line is not a Feature/FeatureCollection/array of Features"
         else
           match obj with
           | .arr xs => processArr gf fl kp xs
           | _ => Except.error
               "NDJSON line is not a Feature/FeatureCollection/array of Features")
      let more ← yield_docs_from_ndjson_lines rest gf fl kp
      Except.ok (ds ++ more)

/-- A CSV row as produced by `csv.DictReader`: the header keys in file
order, each mapped to the cell string, or to `None` for missing trailing
cells. -/
abbrev Row := List (String × Option String)

/-- `row.get(k)`: `None` both when the key is absent and when its stored
value is `None`. -/
def rowGet (row : Row) (k : String) : Option String :=
  match dictGet row k with
  | some (some s) => some s
  | _ => Option.none

/-- A value of a WKT-tool document: the GeoJSON geometry mapping, or a
coerced scalar. -/
inductive WVal where
  | geom (gj : JVal)
  | scalar (p : PyVal)

/-- A document produced by the WKT tool. -/
abbrev WDoc := List (String × WVal)

/-- `parse_wkt` of `load_wkt_csv_to_mongo.py`, with shapely abstracted:
`loads` models `shapely.wkt.loads` (`Option.none` where it raises
`WKTReadingError`), `isValid` models `geom.is_valid`, `buffer0` models the
zero-width-buffer repair `geom.buffer(0)`.  Unparseable WKT becomes the
`ValueError` the caller does not catch. -/
def parse_wkt {Geom : Type} (loads : String → Option Geom) (isValid : Geom → Bool)
    (buffer0 : Geom → Geom) (geom_wkt : String) : Except String Geom :=
  match loads geom_wkt with
  | some g => Except.ok (if isValid g then g else buffer0 g)
  | Option.none => Except.error "Invalid WKT geometry"

/-- `reproject_geometry` of `load_wkt_csv_to_mongo.py`, the pyproj
transformer application abstracted as `transform`: the geometry is
returned untouched when the two CRS strings are equal, else the transform
is applied. -/
def reproject_geometry {Geom : Type} (transform : Geom → Geom) (geom : Geom)
    (src_crs dst_crs : String) : Geom :=
  if src_crs = dst_crs then geom else transform geom

/-- The document built for one non-skipped row: the GeoJSON mapping of the
geometry under `geometry_field`, then every column except the WKT column
coerced, in row order (dict semantics: a later column named like
`geometry_field` overwrites it). -/
def build_wkt_doc (geometry_field wkt_field : String) (gj : JVal) (row : Row) : WDoc :=
  row.foldl
    (fun acc p =>
      if p.1 == wkt_field then acc
      else dictSet acc p.1 (WVal.scalar (coerce_value_wkt p.2)))
    (dictSet [] geometry_field (WVal.geom gj))

/-- `yield_docs_from_csv` of `load_wkt_csv_to_mongo.py` over the parsed
rows: a row whose WKT cell is missing, `None`, or blank is skipped
(`continue`); otherwise the WKT is parsed (raising aborts the stream),
reprojected, mapped to GeoJSON (`mapping` models
`shapely.geometry.mapping`) and emitted as one document. -/
def yield_docs_from_csv {Geom : Type} (loads : String → Option Geom)
    (isValid : Geom → Bool) (buffer0 transform : Geom → Geom) (mapping : Geom → JVal)
    (wkt_field geometry_field crs_in crs_out : String) :
    List Row → Except String (List WDoc)
  | [] => Except.ok []
  | row :: rest =>
      match rowGet row wkt_field with
      | Option.none =>
          yield_docs_from_csv loads isValid buffer0 transform mapping
            wkt_field geometry_field crs_in crs_out rest
      | some raw =>
          if pyStrip raw = "" then
            yield_docs_from_csv loads isValid buffer0 transform mapping
              wkt_field geometry_field crs_in crs_out rest
          else do
            let g ← parse_wkt loads isValid buffer0 raw
            let doc := build_wkt_doc geometry_field wkt_field
              (mapping (reproject_geometry transform g crs_in crs_out)) row
            let more ← yield_docs_from_csv loads isValid buffer0 transform mapping
              wkt_field geometry_field crs_in crs_out rest
            Except.ok (doc :: more)

/-- The per-row outcome of the WKT pipeline, used to state its
specification: `Option.none` for a skipped row, `some doc` for an emitted
document (meaningful when the WKT parses). -/
def wkt_row_result {Geom : Type} (loads : String → Option Geom) (isValid : Geom → Bool)
    (buffer0 transform : Geom → Geom) (mapping : Geom → JVal)
    (wkt_field geometry_field crs_in crs_out : String) (row : Row) : Option WDoc :=
  match rowGet row wkt_field with
  | Option.none => Option.none
  | some raw =>
      if pyStrip raw = "" then Option.none
      else
        (loads raw).map (fun g =>
          build_wkt_doc geometry_field wkt_field
            (mapping (reproject_geometry transform
              (if isValid g then g else buffer0 g) crs_in crs_out)) row)

/-- `main` of `load_csv_to_mongo.py` resolving the connection string:
`os.getenv("MONGO_URI")` followed by `if not mongo_uri: raise
EnvironmentError(...)` — the absent (or empty) variable is fatal, before
the Mongo client is constructed. -/
def resolve_mongo_uri_csv (env : String → Option String) : Except String String :=
  match env "MONGO_URI" with
  | some s =>
      if s = "" then
        Except.error "MONGO_URI not found in environment. Please define it in your .env file."
      else Except.ok s
  | Option.none =>
      Except.error "MONGO_URI not found in environment. Please define it in your .env file."

/-- The `--mongo-uri` default of `load_geojson_to_mongo.py` and
`load_wkt_csv_to_mongo.py`: `os.getenv("MONGO_URI",
"mongodb://localhost:27017")`. -/
def resolve_mongo_uri_default (env : String → Option String) : String :=
  (env "MONGO_URI").getD "mongodb://localhost:27017"

/-! ## Theorems -/

/-- `Char.toNat` inverts `Char.ofNat` on valid codepoints. -/
theorem char_toNat_ofNat (n : Nat) (h : n.isValidChar) : (Char.ofNat n).toNat = n := by
  rw [Char.ofNat, dif_pos h]
  rfl

/-- `Char.toLower` is idempotent: lowering an upper-case latin letter lands
outside the upper-case range, and every other character is fixed. -/
theorem char_toLower_fix (x : Char) : Char.toLower (Char.toLower x) = Char.toLower x := by
  unfold Char.toLower
  by_cases h : x.toNat ≥ 65 ∧ x.toNat ≤ 90
  · rw [if_pos h]
    have hv : (x.toNat + 32).isValidChar := Or.inl (by omega)
    have ht : (Char.ofNat (x.toNat + 32)).toNat = x.toNat + 32 := char_toNat_ofNat _ hv
    rw [if_neg (by omega)]
  · simp only [if_neg h]

/-- Every character `collapseWs` emits is an underscore or a non-whitespace
character of the input. -/
theorem collapseWs_mem :
    ∀ l : List Char, ∀ c ∈ collapseWs l, c = '_' ∨ (c.isWhitespace = false ∧ c ∈ l)
  | [] => by simp [collapseWs]
  | [a] => by
      intro c hc
      unfold collapseWs at hc
      split at hc
      · simp at hc
        exact Or.inl hc
      · next h =>
          simp at hc
          subst hc
          exact Or.inr ⟨by simpa using h, by simp⟩
  | a :: b :: t => by
      intro c hc
      unfold collapseWs at hc
      split at hc
      · split at hc
        · rcases collapseWs_mem (b :: t) c hc with h | ⟨h1, h2⟩
          · exact Or.inl h
          · exact Or.inr ⟨h1, List.mem_cons_of_mem a h2⟩
        · rcases List.mem_cons.1 hc with rfl | hm
          · exact Or.inl rfl
          · rcases collapseWs_mem (b :: t) c hm with h | ⟨h1, h2⟩
            · exact Or.inl h
            · exact Or.inr ⟨h1, List.mem_cons_of_mem a h2⟩
      · next h =>
          rcases List.mem_cons.1 hc with rfl | hm
          · exact Or.inr ⟨by simpa using h, by simp⟩
          · rcases collapseWs_mem (b :: t) c hm with h | ⟨h1, h2⟩
            · exact Or.inl h
            · exact Or.inr ⟨h1, List.mem_cons_of_mem a h2⟩

/-- `collapseWs` fixes whitespace-free lists. -/
theorem collapseWs_eq_self :
    ∀ l : List Char, (∀ c ∈ l, c.isWhitespace = false) → collapseWs l = l
  | [] => fun _ => rfl
  | [a] => fun h => by
      unfold collapseWs
      rw [if_neg (by simp [h a (by simp)])]
  | a :: b :: t => fun h => by
      unfold collapseWs
      rw [if_neg (by simp [h a (by simp)])]
      rw [collapseWs_eq_self (b :: t) (fun c hc => h c (List.mem_cons_of_mem a hc))]

/-- `dropWhile` fixes a list none of whose elements satisfy the predicate. -/
theorem dropWhile_eq_self_of (p : Char → Bool) :
    ∀ l : List Char, (∀ c ∈ l, p c = false) → l.dropWhile p = l
  | [] => fun _ => rfl
  | a :: t => fun h => by
      rw [List.dropWhile_cons, if_neg (by simp [h a (by simp)])]

/-- Stripping leaves a whitespace-free list unchanged. -/
theorem stripList_eq_self (l : List Char) (h : ∀ c ∈ l, c.isWhitespace = false) :
    stripList l = l := by
  unfold stripList
  rw [dropWhile_eq_self_of _ l h,
    dropWhile_eq_self_of _ l.reverse (fun c hc => h c (List.mem_reverse.1 hc)),
    List.reverse_reverse]

/-- C1 (corrected): the CSV loader's `coerce_value` maps the empty string,
all-whitespace strings and `None` to null, `"42"` to the integer 42,
`"3,500.25"` to the float 3500.25 and `"abc"` to the string `"abc"`;
but `"007"` maps to the float 7.0 — the leading zero blocks the integer
branch, after which `float("007")` succeeds — not to the string `"007"`. -/
theorem coerce_value_examples :
    (∀ s : String, pyStrip s = "" → coerce_value (some s) = PyVal.none) ∧
    coerce_value Option.none = PyVal.none ∧
    coerce_value (some "") = PyVal.none ∧
    coerce_value (some "  ") = PyVal.none ∧
    coerce_value (some "007") = PyVal.float (PyFloat.finite 7) ∧
    coerce_value (some "42") = PyVal.int 42 ∧
    coerce_value (some "3,500.25") = PyVal.float (PyFloat.finite 3500.25) ∧
    coerce_value (some "abc") = PyVal.str "abc" := by
  refine ⟨fun s h => by simp [coerce_value, h], rfl, by decide, by decide, ?_, by decide,
    ?_, by decide⟩
  · have h : coerce_value (some "007")
        = PyVal.float (PyFloat.finite
            (ratOfParts 7 0 0 false 0 * (if (false : Bool) then -1 else 1))) := rfl
    rw [h, ratOfParts]
    norm_num
  · have h : coerce_value (some "3,500.25")
        = PyVal.float (PyFloat.finite
            (ratOfParts 3500 25 2 false 0 * (if (false : Bool) then -1 else 1))) := rfl
    rw [h, ratOfParts]
    norm_num

/-- C1 witness: the universally quantified blank-string clause applied to a
concrete whitespace string. -/
theorem coerce_value_examples_witness :
    coerce_value (some " \t ") = PyVal.none :=
  coerce_value_examples.1 " \t " (by decide)

/-- C1 counterexample: on `"007"` the CSV coercion returns the float 7.0,
not the string `"007"` claimed by the spec. -/
theorem coerce_value_leading_zero_counterexample :
    coerce_value (some "007") = PyVal.float (PyFloat.finite 7) ∧
    coerce_value (some "007") ≠ PyVal.str "007" := by
  have h : coerce_value (some "007")
      = PyVal.float (PyFloat.finite
          (ratOfParts 7 0 0 false 0 * (if (false : Bool) then -1 else 1))) := rfl
  constructor
  · rw [h, ratOfParts]; norm_num
  · rw [h]; intro hc; exact PyVal.noConfusion hc

/-- C2 (corrected): the WKT tool's coercion agrees with the CSV tool's on
every input that is not one of the extra null tokens — `None`, blanks,
digit strings, floats and fallback strings are all treated identically —
but the two are not extensionally equal (see the counterexample). -/
theorem coerce_value_wkt_eq_coerce_value (v : Option String)
    (h : ∀ s : String, v = some s →
      pyUpper (pyStrip s) ∉ (["NULL", "N/A", "NA", "NONE"] : List String)) :
    coerce_value_wkt v = coerce_value v := by
  cases v with
  | none => rfl
  | some s =>
      have hs := h s rfl
      by_cases h0 : pyStrip s = ""
      · simp [coerce_value, coerce_value_wkt, h0]
      · simp [coerce_value, coerce_value_wkt, h0, hs]

/-- C2 witness: agreement at the concrete input `"3,500.25"`. -/
theorem coerce_value_wkt_eq_coerce_value_witness :
    coerce_value_wkt (some "3,500.25") = coerce_value (some "3,500.25") :=
  coerce_value_wkt_eq_coerce_value (some "3,500.25")
    (fun s hs => by cases Option.some.inj hs; decide)

/-- C2 counterexample: on `"NULL"` the WKT coercion returns null while the
CSV coercion returns the string `"NULL"`, so the two functions are not
extensionally equal. -/
theorem coerce_value_wkt_ne_coerce_value :
    coerce_value_wkt (some "NULL") = PyVal.none ∧
    coerce_value (some "NULL") = PyVal.str "NULL" ∧
    coerce_value_wkt (some "NULL") ≠ coerce_value (some "NULL") := by
  decide

/-- Any `PyVal` is one of the four scalar shapes. -/
theorem pyVal_cases (p : PyVal) :
    p = PyVal.none ∨ (∃ n, p = PyVal.int n) ∨ (∃ f, p = PyVal.float f) ∨
    (∃ s, p = PyVal.str s) := by
  cases p with
  | none => exact Or.inl rfl
  | int n => exact Or.inr (Or.inl ⟨n, rfl⟩)
  | float f => exact Or.inr (Or.inr (Or.inl ⟨f, rfl⟩))
  | str s => exact Or.inr (Or.inr (Or.inr ⟨s, rfl⟩))

/-- C8 (confirmed): both coercion functions are total — every input,
`None` included, yields a value among {null, int, float, str} — and they
follow the documented precedence: the null check first (`None`/blank for
both; additionally the `NULL`/`N/A`/`NA`/`NONE` tokens for the WKT tool),
then the integer check, then the float parse, then the string fallback. -/
theorem coerce_value_total_precedence (v : Option String) :
    (coerce_value v = PyVal.none ∨ (∃ n, coerce_value v = PyVal.int n) ∨
      (∃ f, coerce_value v = PyVal.float f) ∨ (∃ s, coerce_value v = PyVal.str s)) ∧
    (coerce_value_wkt v = PyVal.none ∨ (∃ n, coerce_value_wkt v = PyVal.int n) ∨
      (∃ f, coerce_value_wkt v = PyVal.float f) ∨ (∃ s, coerce_value_wkt v = PyVal.str s)) ∧
    (v = Option.none → coerce_value v = PyVal.none ∧ coerce_value_wkt v = PyVal.none) ∧
    ∀ s : String, v = some s →
      (pyStrip s = "" → coerce_value v = PyVal.none ∧ coerce_value_wkt v = PyVal.none) ∧
      (pyUpper (pyStrip s) ∈ (["NULL", "N/A", "NA", "NONE"] : List String) →
        coerce_value_wkt v = PyVal.none) ∧
      (intCond (pyStrip s) → pyStrip s ≠ "" →
        coerce_value v = PyVal.int (pyIntOfDigits (pyStrip s))) ∧
      (intCond (pyStrip s) → pyStrip s ≠ "" →
        pyUpper (pyStrip s) ∉ (["NULL", "N/A", "NA", "NONE"] : List String) →
        coerce_value_wkt v = PyVal.int (pyIntOfDigits (pyStrip s))) ∧
      (¬ intCond (pyStrip s) → pyStrip s ≠ "" →
        ∀ f, pyFloat (removeCommas (pyStrip s)) = some f →
          coerce_value v = PyVal.float f) ∧
      (¬ intCond (pyStrip s) → pyStrip s ≠ "" →
        pyUpper (pyStrip s) ∉ (["NULL", "N/A", "NA", "NONE"] : List String) →
        ∀ f, pyFloat (removeCommas (pyStrip s)) = some f →
          coerce_value_wkt v = PyVal.float f) ∧
      (¬ intCond (pyStrip s) → pyStrip s ≠ "" →
        pyFloat (removeCommas (pyStrip s)) = Option.none →
        coerce_value v = PyVal.str (pyStrip s)) ∧
      (¬ intCond (pyStrip s) → pyStrip s ≠ "" →
        pyUpper (pyStrip s) ∉ (["NULL", "N/A", "NA", "NONE"] : List String) →
        pyFloat (removeCommas (pyStrip s)) = Option.none →
        coerce_value_wkt v = PyVal.str (pyStrip s)) := by
  refine ⟨pyVal_cases _, pyVal_cases _, fun h => by subst h; exact ⟨rfl, rfl⟩, ?_⟩
  intro s hs
  subst hs
  refine ⟨fun h0 => ⟨by simp [coerce_value, h0], by simp [coerce_value_wkt, h0]⟩,
    fun hmem => by simp [coerce_value_wkt, hmem], ?_, ?_, ?_, ?_, ?_, ?_⟩
  · intro hi h0
    simp [coerce_value, h0, hi]
  · intro hi h0 hmem
    simp [coerce_value_wkt, h0, hmem, hi]
  · intro hi h0 f hf
    simp [coerce_value, h0, hi, hf]
  · intro hi h0 hmem f hf
    simp [coerce_value_wkt, h0, hmem, hi, hf]
  · intro hi h0 hf
    simp [coerce_value, h0, hi, hf]
  · intro hi h0 hmem hf
    simp [coerce_value_wkt, h0, hmem, hi, hf]

/-- C8 witness: the integer-branch clause of the precedence theorem applied
to the concrete input `" 12 "`, on which the WKT coercion really does run
the null check, then succeeds at the integer check. -/
theorem coerce_value_total_precedence_witness :
    coerce_value_wkt (some " 12 ") = PyVal.int (pyIntOfDigits (pyStrip " 12 ")) :=
  ((coerce_value_total_precedence (some " 12 ")).2.2.2 " 12 " rfl).2.2.2.1
    (by decide) (by decide) (by decide)

/-- Concatenating the batches emitted by the loop reproduces the pending
buffer followed by the remaining input. -/
theorem batchGo_join {α : Type} (n : Nat) (xs : List α) :
    ∀ buf, (batchGo n xs buf).flatten = buf ++ xs := by
  induction xs with
  | nil =>
      intro buf
      unfold batchGo
      split
      · next h => simp [List.isEmpty_iff.1 h]
      · simp
  | cons x xs ih =>
      intro buf
      unfold batchGo
      split
      · simp [ih]
      · simp [ih]

/-- Number of batches the loop emits, given a pending buffer strictly
smaller than the batch size. -/
theorem batchGo_length {α : Type} (n : Nat) (hn : 1 ≤ n) (xs : List α) :
    ∀ buf : List α, buf.length < n →
      (batchGo n xs buf).length = (buf.length + xs.length + n - 1) / n := by
  induction xs with
  | nil =>
      intro buf hb
      unfold batchGo
      split
      · next h =>
          have hb0 : buf = [] := List.isEmpty_iff.1 h
          subst hb0
          simp only [List.length_nil]
          exact (Nat.div_eq_of_lt (by omega)).symm
      · next h =>
          have hpos : 0 < buf.length := by
            cases buf with
            | nil => simp at h
            | cons a t => simp
          simp only [List.length_singleton, List.length_nil]
          have h1 : buf.length + 0 + n - 1 = (buf.length - 1) + n := by omega
          rw [h1, Nat.add_div_right _ (by omega), Nat.div_eq_of_lt (by omega)]
  | cons x xs ih =>
      intro buf hb
      unfold batchGo
      split
      · next h =>
          simp only [List.length_append, List.length_cons, List.length_nil] at h
          have hfull : buf.length + 1 = n := by omega
          simp only [List.length_cons, List.length_nil,
            ih [] (by simp only [List.length_nil]; omega)]
          have h2 : buf.length + (xs.length + 1) + n - 1 = (0 + xs.length + n - 1) + n := by
            omega
          rw [h2, Nat.add_div_right _ (by omega)]
      · next h =>
          simp only [List.length_append, List.length_cons, List.length_nil] at h
          rw [ih (buf ++ [x])
            (by simp only [List.length_append, List.length_cons, List.length_nil]; omega)]
          have h3 : (buf ++ [x]).length + xs.length + n - 1
              = buf.length + (x :: xs).length + n - 1 := by
            simp only [List.length_append, List.length_cons, List.length_nil]
            omega
          rw [h3]

/-- Every batch the loop emits is non-empty and no larger than the batch
size. -/
theorem batchGo_sizes {α : Type} (n : Nat) (xs : List α) :
    ∀ buf : List α, buf.length < n →
      ∀ b ∈ batchGo n xs buf, 0 < b.length ∧ b.length ≤ n := by
  induction xs with
  | nil =>
      intro buf hb b hbm
      unfold batchGo at hbm
      split at hbm
      · simp at hbm
      · next h =>
          rw [List.mem_singleton] at hbm
          subst hbm
          refine ⟨?_, le_of_lt hb⟩
          cases b with
          | nil => simp at h
          | cons a t => simp
  | cons x xs ih =>
      intro buf hb b hbm
      unfold batchGo at hbm
      split at hbm
      · next h =>
          simp only [List.length_append, List.length_cons, List.length_nil] at h
          rcases List.mem_cons.1 hbm with rfl | hm
          · simp only [List.length_append, List.length_cons, List.length_nil]
            omega
          · exact ih [] (by simp only [List.length_nil]; omega) b hm
      · next h =>
          simp only [List.length_append, List.length_cons, List.length_nil] at h
          exact ih (buf ++ [x])
            (by simp only [List.length_append, List.length_cons, List.length_nil]; omega) b hbm

/-- Every batch except possibly the last has size exactly `n`. -/
theorem batchGo_dropLast {α : Type} (n : Nat) (xs : List α) :
    ∀ buf : List α, buf.length < n →
      ∀ b ∈ (batchGo n xs buf).dropLast, b.length = n := by
  induction xs with
  | nil =>
      intro buf hb b hbm
      unfold batchGo at hbm
      split at hbm <;> simp at hbm
  | cons x xs ih =>
      intro buf hb b hbm
      unfold batchGo at hbm
      split at hbm
      · next h =>
          simp only [List.length_append, List.length_cons, List.length_nil] at h
          cases hrest : batchGo n xs [] with
          | nil => rw [hrest] at hbm; simp at hbm
          | cons r rs =>
              rw [hrest, List.dropLast_cons₂, List.mem_cons] at hbm
              rcases hbm with rfl | hm
              · simp only [List.length_append, List.length_cons, List.length_nil]
                omega
              · have hin := ih [] (by simp only [List.length_nil]; omega) b
                rw [hrest] at hin
                exact hin hm
      · next h =>
          simp only [List.length_append, List.length_cons, List.length_nil] at h
          exact ih (buf ++ [x])
            (by simp only [List.length_append, List.length_cons, List.length_nil]; omega) b hbm

/-- The two duplicated batcher loops compute the same batches. -/
theorem batch_iterGo_eq_batchGo {α : Type} (n : Nat) (xs : List α) :
    ∀ buf, batch_iterGo n xs buf = batchGo n xs buf := by
  induction xs with
  | nil => intro buf; rfl
  | cons x xs ih =>
      intro buf
      unfold batch_iterGo batchGo
      split
      · rw [ih]
      · rw [ih]

/-- C3 (confirmed): for batch size `B ≥ 1` the batcher emits exactly
`⌈L/B⌉ = (L + B - 1) / B` batches, each of size exactly `B` except
possibly the last (which is non-empty and of size `≤ B`), concatenating
the batches in order reproduces the input, the empty input emits zero
batches, and `batch_iter` (the identical batcher of the GeoJSON and WKT
tools) agrees with `batch` everywhere. -/
theorem batch_spec {α : Type} (l : List α) (n : Nat) (hn : 1 ≤ n) :
    (batch l n).length = (l.length + n - 1) / n ∧
    (∀ b ∈ (batch l n).dropLast, b.length = n) ∧
    (∀ b ∈ batch l n, 0 < b.length ∧ b.length ≤ n) ∧
    (batch l n).flatten = l ∧
    batch ([] : List α) n = [] ∧
    batch_iter l n = batch l n := by
  refine ⟨?_, ?_, ?_, ?_, ?_, ?_⟩
  · have := batchGo_length n hn l [] (by simpa using hn)
    simpa [batch] using this
  · exact batchGo_dropLast n l [] (by simpa using hn)
  · exact batchGo_sizes n l [] (by simpa using hn)
  · simpa [batch] using batchGo_join n l []
  · rfl
  · exact batch_iterGo_eq_batchGo n l []

/-- C3 witness: batching five elements with batch size two gives three
batches `[[1, 2], [3, 4], [5]]`, whose concatenation restores the input. -/
theorem batch_spec_witness :
    (batch [1, 2, 3, 4, 5] 2).length = (5 + 2 - 1) / 2 ∧
    (batch [1, 2, 3, 4, 5] 2).flatten = [1, 2, 3, 4, 5] :=
  ⟨(batch_spec [1, 2, 3, 4, 5] 2 (by decide)).1,
   (batch_spec [1, 2, 3, 4, 5] 2 (by decide)).2.2.2.1⟩

/-- Every character of a normalized key is non-whitespace, a word
character, and a `Char.toLower` fixpoint. -/
theorem normalize_key_chars (k : String) :
    ∀ c ∈ (normalize_key k).data,
      c.isWhitespace = false ∧ isWordChar c = true ∧ Char.toLower c = c := by
  intro c hc
  have hc' : c ∈ collapseWs (subNonWordNonSpace ((stripList k.data).map Char.toLower)) := hc
  rcases collapseWs_mem _ c hc' with rfl | ⟨h1, h2⟩
  · exact ⟨by decide, by decide, by decide⟩
  · have hfilter : c ∈ ((stripList k.data).map Char.toLower).filter
        (fun c => isWordChar c || c.isWhitespace) := h2
    have hboth := List.mem_filter.1 hfilter
    have hp : (isWordChar c || c.isWhitespace) = true := by simpa using hboth.2
    have hmem : c ∈ (stripList k.data).map Char.toLower := hboth.1
    have hword : isWordChar c = true := by
      rcases (Bool.or_eq_true _ _).mp hp with h | h
      · exact h
      · rw [h1] at h; cases h
    obtain ⟨x, _, rfl⟩ := List.mem_map.1 hmem
    exact ⟨h1, hword, char_toLower_fix x⟩

/-- C6 (confirmed): `normalize_key` is idempotent — its output contains
only lower-case word characters and underscores, which a second pass
leaves untouched — and `"Street Name!"` normalizes to `"street_name"`. -/
theorem normalize_key_idempotent :
    (∀ k : String, normalize_key (normalize_key k) = normalize_key k) ∧
    normalize_key "Street Name!" = "street_name" := by
  constructor
  · intro k
    have hch := normalize_key_chars k
    show (⟨collapseWs (subNonWordNonSpace
        (((stripList (normalize_key k).data)).map Char.toLower))⟩ : String) = normalize_key k
    rw [stripList_eq_self _ (fun c hc => (hch c hc).1)]
    have hmap : (normalize_key k).data.map Char.toLower = (normalize_key k).data.map id :=
      List.map_congr_left (fun c hc => (hch c hc).2.2)
    rw [hmap, List.map_id]
    have hfil : subNonWordNonSpace (normalize_key k).data = (normalize_key k).data :=
      List.filter_eq_self.mpr (fun c hc => by rw [(hch c hc).2.1]; rfl)
    rw [hfil, collapseWs_eq_self _ (fun c hc => (hch c hc).1)]
  · decide

/-- Assigning a key makes it retrievable with the assigned value. -/
theorem dictGet_dictSet_self {β : Type} (d : List (String × β)) (k : String) (v : β) :
    dictGet (dictSet d k v) k = some v := by
  unfold dictSet
  split
  · next h =>
      rw [List.any_eq_true] at h
      obtain ⟨p0, hp0, hp0k⟩ := h
      unfold dictGet
      rw [List.find?_map]
      have hpred : ((fun p => p.1 == k) ∘ fun p => if p.1 == k then (k, v) else p)
          = fun p : String × β => p.1 == k := by
        funext p
        by_cases hp : p.1 = k
        · simp [hp]
        · simp [beq_iff_eq, hp]
      rw [hpred]
      have hsome : (List.find? (fun p : String × β => p.1 == k) d).isSome := by
        rw [List.find?_isSome]
        exact ⟨p0, hp0, hp0k⟩
      obtain ⟨q, hq⟩ := Option.isSome_iff_exists.1 hsome
      rw [hq]
      have hqk := List.find?_some hq
      have hq1 : q.1 = k := by simpa using hqk
      simp [hq1]
  · next h =>
      unfold dictGet
      rw [List.find?_append]
      have hnone : List.find? (fun p : String × β => p.1 == k) d = Option.none := by
        rw [List.find?_eq_none]
        intro p hp
        exact fun hc => h (List.any_eq_true.2 ⟨p, hp, hc⟩)
      rw [hnone]
      simp

/-- Assigning one key does not change lookups of a different key. -/
theorem dictGet_dictSet_ne {β : Type} (d : List (String × β)) (k k' : String) (v : β)
    (hne : k' ≠ k) :
    dictGet (dictSet d k v) k' = dictGet d k' := by
  unfold dictSet
  split
  · unfold dictGet
    rw [List.find?_map]
    have hpred : ((fun p => p.1 == k') ∘ fun p => if p.1 == k then (k, v) else p)
        = fun p : String × β => p.1 == k' := by
      funext p
      by_cases hp : p.1 = k
      · have hcond : (p.1 == k) = true := by simp [hp]
        simp [hcond, hp]
      · simp [beq_iff_eq, hp]
    rw [hpred]
    cases hf : List.find? (fun p : String × β => p.1 == k') d with
    | none => simp
    | some q =>
        have hqk := List.find?_some hf
        have hq1 : q.1 = k' := by simpa using hqk
        have hqne : (q.1 == k) = false := by
          simp [beq_iff_eq, hq1]
          exact hne
        simp [hqne]
        have hnp : ¬ (q.1 = k) := by rw [hq1]; exact hne
        rw [if_neg hnp]
  · unfold dictGet
    rw [List.find?_append]
    have : List.find? (fun p : String × β => p.1 == k') [(k, v)] = Option.none := by
      simp [beq_iff_eq]
      exact fun hc => absurd hc.symm hne
    rw [this]
    simp

/-- A key absent from a dict gives no lookup result. -/
theorem dictGet_eq_none {β : Type} (kvs : List (String × β)) (k : String)
    (h : ∀ p ∈ kvs, p.1 ≠ k) :
    dictGet kvs k = Option.none := by
  unfold dictGet
  rw [List.find?_eq_none.2 (fun p hp => by simp [beq_iff_eq]; exact h p hp)]
  rfl

/-- `update` with entries not containing a key leaves its lookup alone. -/
theorem dictGet_dictUpdate_of_none {β : Type} (kvs : List (String × β)) :
    ∀ (d : List (String × β)) (k : String), dictGet kvs k = Option.none →
      dictGet (dictUpdate d kvs) k = dictGet d k := by
  induction kvs with
  | nil => intro d k _; rfl
  | cons a rest ih =>
      intro d k hk
      unfold dictGet at hk
      rw [List.find?_cons] at hk
      by_cases ha : a.1 == k
      · rw [ha] at hk; simp at hk
      · rw [Bool.eq_false_iff.mpr ha] at hk
        have hrest : dictGet rest k = Option.none := by
          unfold dictGet
          cases hf : List.find? (fun p : String × β => p.1 == k) rest with
          | none => rfl
          | some q => rw [hf] at hk; simp at hk
        have hkne : k ≠ a.1 := fun hc => ha (by simp [beq_iff_eq, hc])
        calc dictGet (dictUpdate (dictSet d a.1 a.2) rest) k
            = dictGet (dictSet d a.1 a.2) k := ih (dictSet d a.1 a.2) k hrest
          _ = dictGet d k := dictGet_dictSet_ne d a.1 k a.2 hkne

/-- `update` makes a key of its (duplicate-free) entry list retrievable
with the entry's value. -/
theorem dictGet_dictUpdate_of_some {β : Type} (kvs : List (String × β)) :
    ∀ (d : List (String × β)) (k : String) (v : β),
      (kvs.map Prod.fst).Nodup → dictGet kvs k = some v →
      dictGet (dictUpdate d kvs) k = some v := by
  induction kvs with
  | nil => intro d k v _ hk; simp [dictGet] at hk
  | cons a rest ih =>
      intro d k v hnod hk
      rw [List.map_cons, List.nodup_cons] at hnod
      unfold dictGet at hk
      rw [List.find?_cons] at hk
      by_cases ha : a.1 == k
      · rw [ha] at hk
        simp at hk
        have hak : a.1 = k := by simpa using ha
        have hrest : dictGet rest k = Option.none := by
          apply dictGet_eq_none
          intro p hp hc
          have hm : p.1 ∈ rest.map Prod.fst := List.mem_map_of_mem Prod.fst hp
          rw [hc, ← hak] at hm
          exact hnod.1 hm
        calc dictGet (dictUpdate (dictSet d a.1 a.2) rest) k
            = dictGet (dictSet d a.1 a.2) k :=
              dictGet_dictUpdate_of_none rest (dictSet d a.1 a.2) k hrest
          _ = some a.2 := by rw [hak]; exact dictGet_dictSet_self d k a.2
          _ = some v := by rw [hk]
      · rw [Bool.eq_false_iff.mpr ha] at hk
        have hrest : dictGet rest k = some v := by
          unfold dictGet
          cases hf : List.find? (fun p : String × β => p.1 == k) rest with
          | none => rw [hf] at hk; simp at hk
          | some q => rw [hf] at hk; simpa using hk
        exact ih (dictSet d a.1 a.2) k v hnod.2 hrest

/-- C4 (corrected): for a Feature with a dict-valued `properties`, the
flattening transformer puts every top-level property at the document root
with its value and flattened keys override the geometry field written
before them — but the retained feature identifier is written after
flattening, so a flattened property named `_feature_id` is overridden by
the Feature's `id` (not the other way round, as the claim's universal
"flattened keys take precedence" asserts); the `properties` key is absent
provided neither a property key nor the geometry field is itself named
`"properties"`; with flattening disabled the properties object is kept
nested under `"properties"`. -/
theorem normalize_feature_spec (gf : String) (kp : Bool) (kvs pkvs : List (String × JVal))
    (hfeat : is_feature (JVal.obj kvs) = true)
    (hprops : dictGet kvs "properties" = some (JVal.obj pkvs))
    (hnodup : (pkvs.map Prod.fst).Nodup) :
    (∃ d, normalize_feature (JVal.obj kvs) gf true kp = Except.ok d) ∧
    (∀ d, normalize_feature (JVal.obj kvs) gf true kp = Except.ok d →
      (∀ k v, dictGet pkvs k = some v →
        ¬(kp = true ∧ (dictGet kvs "id").isSome = true ∧ k = "_feature_id") →
        dictGet d k = some v) ∧
      (∀ i, kp = true → dictGet kvs "id" = some i → dictGet d "_feature_id" = some i) ∧
      (dictGet pkvs "properties" = Option.none → gf ≠ "properties" →
        dictGet d "properties" = Option.none)) ∧
    (∀ d, normalize_feature (JVal.obj kvs) gf false kp = Except.ok d →
      dictGet d "properties" = some (JVal.obj pkvs)) := by
  have hp1 : (dictGet kvs "properties").getD (JVal.obj []) = JVal.obj pkvs := by
    rw [hprops]; rfl
  have hp2 : (if isFalsy (JVal.obj pkvs) then JVal.obj [] else JVal.obj pkvs)
      = JVal.obj pkvs := by
    by_cases he : pkvs.isEmpty
    · have hpe : pkvs = [] := List.isEmpty_iff.1 he
      subst hpe
      rfl
    · simp [isFalsy, he]
  have hflat : normalize_feature (JVal.obj kvs) gf true kp = Except.ok
      (if kp = true ∧ (dictGet kvs "id").isSome = true then
        dictSet (dictUpdate (dictSet [] gf ((dictGet kvs "geometry").getD JVal.null)) pkvs)
          "_feature_id" ((dictGet kvs "id").getD JVal.null)
      else dictUpdate (dictSet [] gf ((dictGet kvs "geometry").getD JVal.null)) pkvs) := by
    simp only [normalize_feature, hfeat, not_true, if_false, hp1, hp2]
  have hnonflat : normalize_feature (JVal.obj kvs) gf false kp = Except.ok
      (if kp = true ∧ (dictGet kvs "id").isSome = true then
        dictSet (dictSet (dictSet [] gf ((dictGet kvs "geometry").getD JVal.null))
          "properties" (JVal.obj pkvs)) "_feature_id" ((dictGet kvs "id").getD JVal.null)
      else dictSet (dictSet [] gf ((dictGet kvs "geometry").getD JVal.null))
        "properties" (JVal.obj pkvs)) := by
    simp only [normalize_feature, hfeat, not_true, if_false, hp1, hp2]
  refine ⟨⟨_, hflat⟩, ?_, ?_⟩
  · intro d hd
    rw [hflat] at hd
    have hd' := Except.ok.inj hd
    subst hd'
    refine ⟨?_, ?_, ?_⟩
    · intro k v hkv hnc
      by_cases hkeep : kp = true ∧ (dictGet kvs "id").isSome = true
      · rw [if_pos hkeep]
        have hkne : k ≠ "_feature_id" := fun hc => hnc ⟨hkeep.1, hkeep.2, hc⟩
        rw [dictGet_dictSet_ne _ _ _ _ hkne]
        exact dictGet_dictUpdate_of_some pkvs _ k v hnodup hkv
      · rw [if_neg hkeep]
        exact dictGet_dictUpdate_of_some pkvs _ k v hnodup hkv
    · intro i hkp hid
      rw [if_pos ⟨hkp, by rw [hid]; rfl⟩]
      rw [dictGet_dictSet_self]
      rw [hid]
      rfl
    · intro hnp hgf
      have hbase : dictGet (dictSet [] gf ((dictGet kvs "geometry").getD JVal.null))
          "properties" = Option.none := by
        rw [dictGet_dictSet_ne _ _ _ _ (Ne.symm hgf)]
        rfl
      have hupd : dictGet (dictUpdate (dictSet [] gf
          ((dictGet kvs "geometry").getD JVal.null)) pkvs) "properties" = Option.none := by
        rw [dictGet_dictUpdate_of_none pkvs _ _ hnp]
        exact hbase
      by_cases hkeep : kp = true ∧ (dictGet kvs "id").isSome = true
      · rw [if_pos hkeep]
        rw [dictGet_dictSet_ne _ _ _ _ (by decide : "properties" ≠ "_feature_id")]
        exact hupd
      · rw [if_neg hkeep]
        exact hupd
  · intro d hd
    rw [hnonflat] at hd
    have hd' := Except.ok.inj hd
    subst hd'
    by_cases hkeep : kp = true ∧ (dictGet kvs "id").isSome = true
    · rw [if_pos hkeep]
      rw [dictGet_dictSet_ne _ _ _ _ (by decide : "properties" ≠ "_feature_id")]
      exact dictGet_dictSet_self _ _ _
    · rw [if_neg hkeep]
      exact dictGet_dictSet_self _ _ _

/-- C4 witness: a Feature `{"type": "Feature", "properties": {"name": "x"}}`
flattened with the default geometry field has `name` at the root. -/
theorem normalize_feature_spec_witness :
    dictGet [("geometry", JVal.null), ("name", JVal.str "x")] "name"
      = some (JVal.str "x") :=
  ((normalize_feature_spec "geometry" false
      [("type", JVal.str "Feature"), ("properties", JVal.obj [("name", JVal.str "x")])]
      [("name", JVal.str "x")] rfl rfl (by simp)).2.1
    [("geometry", JVal.null), ("name", JVal.str "x")] rfl).1
    "name" (JVal.str "x") rfl (by simp)

/-- C4 counterexample: with flattening and id retention enabled, a Feature
whose properties define `_feature_id` ends up with the Feature's `id`
value under `_feature_id`, not the flattened property value — the
identifier write happens after flattening and wins. -/
theorem normalize_feature_id_precedence_counterexample :
    normalize_feature (JVal.obj [("type", JVal.str "Feature"),
        ("properties", JVal.obj [("_feature_id", JVal.str "zero")]),
        ("id", JVal.str "seven")]) "geometry" true true
      = Except.ok [("geometry", JVal.null), ("_feature_id", JVal.str "seven")] ∧
    dictGet [("geometry", JVal.null), ("_feature_id", JVal.str "seven")] "_feature_id"
      ≠ some (JVal.str "zero") := by
  constructor
  · rfl
  · have hval : dictGet [("geometry", JVal.null), ("_feature_id", JVal.str "seven")]
        "_feature_id" = some (JVal.str "seven") := rfl
    rw [hval]
    intro hc
    simp at hc

/-- The bare-array branch always succeeds: Features are normalized under
the `is_feature` guard (so `normalize_feature` cannot raise) and anything
else is skipped. -/
theorem processArr_total (gf : String) (fl kp : Bool) :
    ∀ xs : List JVal, ∃ ds, processArr gf fl kp xs = Except.ok ds := by
  intro xs
  induction xs with
  | nil => exact ⟨[], rfl⟩
  | cons x rest ih =>
      obtain ⟨ds, hds⟩ := ih
      by_cases hx : is_feature x = true
      · have hnorm : ∃ d, normalize_feature x gf fl kp = Except.ok d := by
          unfold normalize_feature
          rw [if_neg (by simp [hx])]
          exact ⟨_, rfl⟩
        obtain ⟨d, hd⟩ := hnorm
        refine ⟨d :: ds, ?_⟩
        simp [processArr, hx, hd, hds, Bind.bind, Except.bind]
      · have hx' : is_feature x = false := by simpa using hx
        refine ⟨ds, ?_⟩
        simp [processArr, hx', hds]

/-- An array none of whose elements is a Feature yields no documents. -/
theorem processArr_skips (gf : String) (fl kp : Bool) :
    ∀ xs : List JVal, (∀ x ∈ xs, is_feature x = false) →
      processArr gf fl kp xs = Except.ok [] := by
  intro xs
  induction xs with
  | nil => intro _; rfl
  | cons x rest ih =>
      intro h
      have hx := h x (by simp)
      simp [processArr, hx, ih (fun y hy => h y (by simp [hy]))]

/-- C10 (confirmed): a top-level bare JSON array — and an NDJSON line
parsing to an array — never raises the malformed-input error, whatever
its elements: non-Features are silently skipped, and an array of
non-Features yields zero documents rather than an error. -/
theorem geojson_array_never_errors (gf : String) (fl kp : Bool) (xs : List JVal) :
    (∃ ds, yield_docs_from_geojson_value (JVal.arr xs) gf fl kp = Except.ok ds) ∧
    (∃ ds, yield_docs_from_ndjson_lines [JVal.arr xs] gf fl kp = Except.ok ds) ∧
    ((∀ x ∈ xs, is_feature x = false) →
      yield_docs_from_geojson_value (JVal.arr xs) gf fl kp = Except.ok [] ∧
      yield_docs_from_ndjson_lines [JVal.arr xs] gf fl kp = Except.ok []) := by
  have hred : yield_docs_from_geojson_value (JVal.arr xs) gf fl kp
      = processArr gf fl kp xs := rfl
  have hred2 : yield_docs_from_ndjson_lines [JVal.arr xs] gf fl kp
      = (processArr gf fl kp xs).bind (fun ds => Except.ok (ds ++ [])) := rfl
  obtain ⟨ds, hds⟩ := processArr_total gf fl kp xs
  refine ⟨⟨ds, by rw [hred]; exact hds⟩, ⟨ds ++ [], ?_⟩, ?_⟩
  · rw [hred2, hds]
    rfl
  · intro h
    have h0 := processArr_skips gf fl kp xs h
    exact ⟨by rw [hred]; exact h0, by rw [hred2, h0]; rfl⟩

/-- C10 witness: a singleton array holding a bare string (not a Feature)
yields zero documents and no error, in both the whole-file and NDJSON
paths. -/
theorem geojson_array_never_errors_witness :
    yield_docs_from_geojson_value (JVal.arr [JVal.str "nope"]) "geometry" true true
      = Except.ok [] ∧
    yield_docs_from_ndjson_lines [JVal.arr [JVal.str "nope"]] "geometry" true true
      = Except.ok [] :=
  (geojson_array_never_errors "geometry" true true [JVal.str "nope"]).2.2
    (fun x hx => by rcases List.mem_singleton.1 hx with rfl; rfl)

/-- C7 (confirmed): when the declared source CRS string equals the
declared destination string, reprojection returns the parsed geometry
unchanged — no transform is applied, whatever the transformer would do. -/
theorem reproject_geometry_identity {Geom : Type} (transform : Geom → Geom)
    (geom : Geom) (src_crs dst_crs : String) (h : src_crs = dst_crs) :
    reproject_geometry transform geom src_crs dst_crs = geom := by
  simp [reproject_geometry, h]

/-- C7 witness: identity reprojection at EPSG:4326 on a concrete geometry
with a transformer that would have moved it. -/
theorem reproject_geometry_identity_witness :
    reproject_geometry (fun n : Nat => n + 1) 5 "EPSG:4326" "EPSG:4326" = 5 :=
  reproject_geometry_identity (fun n : Nat => n + 1) 5 "EPSG:4326" "EPSG:4326" rfl

/-- C9 (confirmed): with `MONGO_URI` absent from the environment, the CSV
loader's connection-string resolution raises its configuration error (in
the source this happens before the Mongo client is constructed), while
the GeoJSON and WKT loaders silently default to the localhost URI. -/
theorem mongo_uri_env_absent (env : String → Option String)
    (h : env "MONGO_URI" = Option.none) :
    resolve_mongo_uri_csv env = Except.error
      "MONGO_URI not found in environment. Please define it in your .env file." ∧
    resolve_mongo_uri_default env = "mongodb://localhost:27017" := by
  unfold resolve_mongo_uri_csv resolve_mongo_uri_default
  rw [h]
  exact ⟨rfl, rfl⟩

/-- C9 witness: the empty environment. -/
theorem mongo_uri_env_absent_witness :
    resolve_mongo_uri_csv (fun _ => Option.none) = Except.error
      "MONGO_URI not found in environment. Please define it in your .env file." ∧
    resolve_mongo_uri_default (fun _ => Option.none) = "mongodb://localhost:27017" :=
  mongo_uri_env_absent (fun _ => Option.none) rfl

/-- When every non-skipped row's WKT parses, the stream succeeds and emits
exactly the per-row results, in order. -/
theorem yield_docs_from_csv_eq {Geom : Type} (loads : String → Option Geom)
    (isValid : Geom → Bool) (buffer0 transform : Geom → Geom) (mapping : Geom → JVal)
    (wf gf ci co : String) :
    ∀ rows : List Row,
      (∀ row ∈ rows, ∀ raw, rowGet row wf = some raw → pyStrip raw ≠ "" →
        (loads raw).isSome = true) →
      yield_docs_from_csv loads isValid buffer0 transform mapping wf gf ci co rows
        = Except.ok (rows.filterMap
            (wkt_row_result loads isValid buffer0 transform mapping wf gf ci co)) := by
  intro rows
  induction rows with
  | nil => intro _; rfl
  | cons row rest ih =>
      intro hparse
      have hrest := ih (fun r hr raw h1 h2 => hparse r (List.mem_cons_of_mem row hr) raw h1 h2)
      cases hwkt : rowGet row wf with
      | none =>
          simp only [yield_docs_from_csv, hwkt, List.filterMap_cons, wkt_row_result]
          exact hrest
      | some raw =>
          by_cases hblank : pyStrip raw = ""
          · simp only [yield_docs_from_csv, hwkt, hblank, if_true, List.filterMap_cons,
              wkt_row_result, if_pos hblank]
            exact hrest
          · have hsome := hparse row (List.mem_cons_self row rest) raw hwkt hblank
            obtain ⟨g, hg⟩ := Option.isSome_iff_exists.1 hsome
            simp only [yield_docs_from_csv, hwkt, hblank, if_false, List.filterMap_cons,
              wkt_row_result, if_neg hblank, parse_wkt, hg, hrest, Option.map_some,
              Bind.bind, Except.bind]
            rfl

/-- C5 (corrected): a row whose WKT cell is missing, `None` or blank
yields no document at all (not a null-geometry document); a row whose
non-blank WKT parses yields exactly one document; but a row whose WKT
fails to parse raises the geometry error and aborts the stream (see the
counterexample), so "every other row produces exactly one document" holds
only for rows whose WKT parses. -/
theorem yield_docs_from_csv_spec {Geom : Type} (loads : String → Option Geom)
    (isValid : Geom → Bool) (buffer0 transform : Geom → Geom) (mapping : Geom → JVal)
    (wf gf ci co : String) (rows : List Row)
    (hparse : ∀ row ∈ rows, ∀ raw, rowGet row wf = some raw → pyStrip raw ≠ "" →
      (loads raw).isSome = true) :
    yield_docs_from_csv loads isValid buffer0 transform mapping wf gf ci co rows
      = Except.ok (rows.filterMap
          (wkt_row_result loads isValid buffer0 transform mapping wf gf ci co)) ∧
    (∀ row : Row, rowGet row wf = Option.none →
      wkt_row_result loads isValid buffer0 transform mapping wf gf ci co row
        = Option.none) ∧
    (∀ (row : Row) (raw : String), rowGet row wf = some raw → pyStrip raw = "" →
      wkt_row_result loads isValid buffer0 transform mapping wf gf ci co row
        = Option.none) ∧
    (∀ (row : Row) (raw : String), rowGet row wf = some raw → pyStrip raw ≠ "" →
      (loads raw).isSome = true →
      ∃ d, wkt_row_result loads isValid buffer0 transform mapping wf gf ci co row
        = some d) := by
  refine ⟨yield_docs_from_csv_eq loads isValid buffer0 transform mapping wf gf ci co
    rows hparse, ?_, ?_, ?_⟩
  · intro row h
    simp [wkt_row_result, h]
  · intro row raw h1 h2
    simp [wkt_row_result, h1, h2]
  · intro row raw h1 h2 h3
    obtain ⟨g, hg⟩ := Option.isSome_iff_exists.1 h3
    simp [wkt_row_result, h1, h2, hg]

/-- C5 witness: of two concrete rows, the blank-WKT row is skipped and the
other emits exactly one document, holding the geometry and the coerced
remaining column. -/
theorem yield_docs_from_csv_spec_witness :
    @yield_docs_from_csv Unit (fun _ => some ()) (fun _ => true) id id
        (fun _ => JVal.null) "the_geom" "geometry" "EPSG:4326" "EPSG:4326"
        [[("the_geom", some " ")], [("the_geom", some "POINT (30 10)"), ("name", some "a")]]
      = Except.ok [[("geometry", WVal.geom JVal.null),
          ("name", WVal.scalar (PyVal.str "a"))]] := by
  have h := (@yield_docs_from_csv_spec Unit (fun _ => some ()) (fun _ => true) id id
    (fun _ => JVal.null) "the_geom" "geometry" "EPSG:4326" "EPSG:4326"
    [[("the_geom", some " ")], [("the_geom", some "POINT (30 10)"), ("name", some "a")]]
    (fun _ _ _ _ _ => rfl)).1
  rw [h]
  rfl

/-- C5 counterexample: a row whose WKT cell is non-blank but unparseable
(shapely's `wkt.loads` raising is modelled by a loader returning
`Option.none`) aborts the stream with the geometry error instead of
producing exactly one document. -/
theorem yield_docs_from_csv_parse_failure_counterexample :
    @yield_docs_from_csv Unit (fun _ => Option.none) (fun _ => true) id id
        (fun _ => JVal.null) "the_geom" "geometry" "EPSG:4326" "EPSG:4326"
        [[("the_geom", some "not wkt")]]
      = Except.error "Invalid WKT geometry" ∧
    ∀ ds, @yield_docs_from_csv Unit (fun _ => Option.none) (fun _ => true) id id
        (fun _ => JVal.null) "the_geom" "geometry" "EPSG:4326" "EPSG:4326"
        [[("the_geom", some "not wkt")]] ≠ Except.ok ds := by
  constructor
  · rfl
  · intro ds h
    rw [show @yield_docs_from_csv Unit (fun _ => Option.none) (fun _ => true) id id
        (fun _ => JVal.null) "the_geom" "geometry" "EPSG:4326" "EPSG:4326"
        [[("the_geom", some "not wkt")]] = Except.error "Invalid WKT geometry" from rfl] at h
    cases h

end FloodRisk
